import Mathlib

/-!
Verification development for the `tgen` perceptron ranker (`tgen/rank.py`).

Shallow embedding: feature vectors are lists of rationals; numpy array
arithmetic on equal-dimension vectors becomes `zipWith`; Python exceptions
become `Except ErrKind`; randomness (`random.sample`, the sampling planner)
and external collaborators (feature extractor, vectorizer, normalizer,
A-star planner search results) are passed in as explicit data with the
properties the corresponding Python library calls guarantee.
-/

set_option maxRecDepth 4000

/-- Python exception kinds that the embedded code can raise. -/
inductive ErrKind where
  | valueError
  | zeroDivisionError
  | attributeError
  | assertionError
  deriving DecidableEq

/-- Rival generation strategy tags; the Python code stores these as the
strings "other_inst", "random", "gen_cur_weights" in
`self.rival_gen_strategy` and tests membership. -/
inductive RivalStrategy where
  | other_inst
  | random
  | gen_cur_weights
  deriving DecidableEq

/-- Elementwise product summed: `np.dot(w, cand_feats)` for equal-dimension
1-D arrays (`PerceptronRanker._score`). -/
def dotProd (u v : List ℚ) : ℚ :=
  (List.zipWith (fun a b => a * b) u v).sum

/-- Scalar times vector: `alpha * feats` on a numpy array. -/
def vecScale (a : ℚ) (v : List ℚ) : List ℚ :=
  v.map (fun x => a * x)

/-- Elementwise sum: `w + delta` on equal-dimension numpy arrays. -/
def vecAdd (u v : List ℚ) : List ℚ :=
  List.zipWith (fun a b => a + b) u v

/-- Elementwise difference on equal-dimension numpy arrays. -/
def vecSub (u v : List ℚ) : List ℚ :=
  List.zipWith (fun a b => a - b) u v

/-- Python `max(scores)` for a nonempty list (the `[]` case is never
reached by guarded call sites; Python would raise ValueError there). -/
def listMax : List ℚ → ℚ
  | [] => 0
  | x :: xs => xs.foldl max x

/-- Python `scores.index(max(scores))`: index of the FIRST occurrence of
the maximum (`top_cand_idx`, rank.py line 156). -/
def idxOfMax (l : List ℚ) : ℕ :=
  l.indexOf (listMax l)

/-- Candidate list of one training instance: `cands = [gold_feats] + rival_feats`
(rank.py line 152); the gold feature vector occupies index 0. -/
def candList (gold : List ℚ) (rivals : List (List ℚ)) : List (List ℚ) :=
  gold :: rivals

/-- Scores of all candidates with the current weights (rank.py line 155). -/
def stepScores (w gold : List ℚ) (rivals : List (List ℚ)) : List ℚ :=
  (candList gold rivals).map (dotProd w)

/-- Perceptron update `w += alpha * gold_feats - alpha * cands[top_cand_idx]`
(rank.py lines 172-173). -/
def perceptronUpdate (w : List ℚ) (alpha : ℚ) (gold rival : List ℚ) : List ℚ :=
  vecAdd w (vecSub (vecScale alpha gold) (vecScale alpha rival))

/-- Body of the per-instance part of `PerceptronRanker._training_iter`
(rank.py lines 150-178) after rival candidates have been obtained: score
`[gold] + rivals`, pick the first index attaining the maximal score, and
update the weights when that index is not the gold one.  The evaluator
diagnostics at lines 160-161 compute `max(scores[1:])`, which raises
ValueError when the rival list is empty; that happens before the update
check, so an empty rival list aborts the step with the weights untouched.
Returns the new weight vector and whether an update (an error for the
accuracy bookkeeping) occurred. -/
def instanceStep (w : List ℚ) (alpha : ℚ) (gold : List ℚ)
    (rivals : List (List ℚ)) : Except ErrKind (List ℚ × Bool) :=
  let cands := candList gold rivals
  let scores := stepScores w gold rivals
  let top := idxOfMax scores
  if rivals.isEmpty then
    Except.error ErrKind.valueError
  else if top ≠ 0 then
    Except.ok (perceptronUpdate w alpha gold (cands.getD top []), true)
  else
    Except.ok (w, false)

section RivalGeneration

variable {T D : Type} [DecidableEq T] [Inhabited T]

/-- Index substitution of the `other_inst` strategy (rank.py lines 218-219):
`map(lambda idx: len(train_trees) - 1 if idx == tree_no else idx, sample)`,
where `sample = random.sample(xrange(len(train_trees) - 1), rival_number)`
is passed in as the list `sample` (distinct draws below `n - 1`). -/
def otherInstIdxs (n tree_no : ℕ) (sample : List ℕ) : List ℕ :=
  sample.map (fun idx => if idx = tree_no then n - 1 else idx)

/-- The `other_inst` strategy (rank.py lines 216-222): look up the trees at
the substituted indices and extract each one's features against the CURRENT
instance's `da`. -/
def otherInstStrategy (trainTrees : List T) (extract : T → D → List ℚ)
    (da : D) (tree_no : ℕ) (sample : List ℕ) : List T × List (List ℚ) :=
  let idxs := otherInstIdxs trainTrees.length tree_no sample
  let trees := idxs.map (fun i => trainTrees.getD i default)
  (trees, trees.map (fun t => extract t da))

/-- Fuel-indexed unfolding of the `random` strategy loop (rank.py lines
226-230): `while len(random_trees) < rival_number:` draw
`sampling_planner.generate_tree(da)` (the stream `gen`, attempt `i` giving
`gen i`) and keep it unless it equals the gold tree.  The Python loop has
no attempt cap; `none` means the given fuel was exhausted before
`rival_number` trees were collected, i.e. the loop is still running. -/
def randomLoopAux (gen : ℕ → T) (gold : T) (k : ℕ) :
    ℕ → ℕ → List T → Option (List T)
  | 0, _, acc => if k ≤ acc.length then some acc else none
  | fuel + 1, i, acc =>
    if k ≤ acc.length then some acc
    else
      let t := gen i
      randomLoopAux gen gold k fuel (i + 1) (if t ≠ gold then acc ++ [t] else acc)

/-- Result of the `random` strategy loop run from scratch with the given
amount of fuel. -/
def randomStrategyTrees (gen : ℕ → T) (gold : T) (k fuel : ℕ) : Option (List T) :=
  randomLoopAux gen gold k fuel 0 []

/-- Number of attempts in `gen i, gen (i+1), ..., gen (i+fuel-1)` that
produce a tree different from the gold one. -/
def countNonGold (gen : ℕ → T) (gold : T) : ℕ → ℕ → ℕ
  | _, 0 => 0
  | i, fuel + 1 => (if gen i ≠ gold then 1 else 0) + countNonGold gen gold (i + 1) fuel

/-- Drain loop of the `gen_cur_weights` strategy (rank.py lines 244-247):
`while close_list and len(gen_trees) < rival_number:` pop the LAST entry,
take its tree component, and keep it unless it equals the gold tree.  The
argument list is the closed list already reversed, so popping from the end
becomes taking the head. -/
def drainAux (gold : T) : ℕ → List (T × ℚ) → List T
  | _, [] => []
  | k, p :: rest =>
    if k = 0 then []
    else if p.1 ≠ gold then p.1 :: drainAux gold (k - 1) rest
    else drainAux gold k rest

/-- One analyzer record: `lists_analyzer.append(train_trees[tree_no],
open_list, close_list)` (rank.py line 242). -/
abbrev AnalyzerLog (T : Type) : Type :=
  List (T × List (T × ℚ) × List (T × ℚ))

/-- The `gen_cur_weights` strategy (rank.py lines 237-247) applied to the
search result `(openL, closeL)` returned by `asearch_planner.run`: first
the open and closed lists are appended to the diagnostics analyzer, then
up to `k = rival_number` non-gold trees are drained from the end of the
closed list. -/
def gcwStrategy (analyzer : AnalyzerLog T) (gold : T)
    (openL closeL : List (T × ℚ)) (k : ℕ) : AnalyzerLog T × List T :=
  (analyzer ++ [(gold, openL, closeL)], drainAux gold k closeL.reverse)

/-- Full rival candidate generation `PerceptronRanker._get_rival_candidates`
(rank.py lines 200-253).  The enabled strategies run in the fixed source
order `other_inst`, `random`, `gen_cur_weights` and extend the tree and
feature lists; every feature vector is extracted against the current
instance's `da`.  External inputs: `sample` stands for `random.sample`,
`gen`/`fuel` for the sampling planner stream, `(openL, closeL)` for the
A-star planner's result.  `none` propagates a non-terminating `random`
loop. -/
def getRivalCandidates (strategy : List RivalStrategy)
    (trainTrees : List T) (extract : T → D → List ℚ) (da : D)
    (tree_no : ℕ) (sample : List ℕ) (gen : ℕ → T) (fuel : ℕ)
    (openL closeL : List (T × ℚ)) (analyzer : AnalyzerLog T)
    (rival_number : ℕ) :
    Option (List T × List (List ℚ) × AnalyzerLog T) :=
  let gold := trainTrees.getD tree_no default
  let p1 :=
    if RivalStrategy.other_inst ∈ strategy then
      otherInstStrategy trainTrees extract da tree_no sample
    else ([], [])
  let r2 :=
    if RivalStrategy.random ∈ strategy then
      randomStrategyTrees gen gold rival_number fuel
    else some []
  match r2 with
  | none => none
  | some t2 =>
    let f2 := t2.map (fun t => extract t da)
    let p3 :=
      if RivalStrategy.gen_cur_weights ∈ strategy then
        gcwStrategy analyzer gold openL closeL rival_number
      else (analyzer, [])
    let t3 := p3.2.take rival_number
    let f3 := t3.map (fun t => extract t da)
    some (p1.1 ++ t2 ++ t3, p1.2 ++ f2 ++ f3, p3.1)

end RivalGeneration

/-- Python 2 `round`: half away from zero (then `int(...)` truncation is
the identity on the already-integral result). -/
def pyRound (q : ℚ) : ℤ :=
  if 0 ≤ q then ⌊q + 1 / 2⌋ else ⌈q - 1 / 2⌉

/-- Training set truncation of `_init_training` (rank.py line 100):
`train_size = int(round(data_portion * len(ttrees)))`. -/
def initTrainSize (data_portion : ℚ) (n : ℕ) : ℕ :=
  (pyRound (data_portion * n)).toNat

/-- Per-pass instance loop of `_training_iter` (rank.py lines 148-178),
folding `instanceStep` left to right over the truncated training set and
counting updates in `iter_errs`; the rival feature vectors of instance `i`
are supplied by `rivals i`.  The first raised exception aborts the pass. -/
def runInstances (alpha : ℚ) (rivals : ℕ → List (List ℚ)) :
    List (List ℚ) → ℕ → List ℚ → ℕ → Except ErrKind (List ℚ × ℕ)
  | [], _, w, errs => Except.ok (w, errs)
  | g :: rest, i, w, errs =>
    match instanceStep w alpha g (rivals i) with
    | Except.error e => Except.error e
    | Except.ok (w2, upd) =>
      runInstances alpha rivals rest (i + 1) w2 (if upd then errs + 1 else errs)

/-- One training pass `_training_iter` (rank.py lines 139-193): run the
instance loop, then compute the pass accuracy
`iter_acc = 1.0 - iter_errs / float(len(self.train_trees))` (line 180),
which raises ZeroDivisionError when the training set is empty.  Returns
the final weights, the error count and the accuracy. -/
def trainingIter (w : List ℚ) (alpha : ℚ) (goldFeats : List (List ℚ))
    (rivals : ℕ → List (List ℚ)) : Except ErrKind (List ℚ × ℕ × ℚ) :=
  match runInstances alpha rivals goldFeats 0 w 0 with
  | Except.error e => Except.error e
  | Except.ok (w2, errs) =>
    if goldFeats.length = 0 then Except.error ErrKind.zeroDivisionError
    else Except.ok (w2, errs, 1 - (errs : ℚ) / (goldFeats.length : ℚ))

/-- Conditional construction of the rival generation dependencies in
`_init_training` (rank.py lines 114-126).  The `candgen` and
`sampling_planner` attributes are assigned only when `candgen_model` is
set (lines 115-120); `Option Unit` records whether each attribute exists
on the instance.  When the `gen_cur_weights` strategy is configured, line
122 executes `assert self.candgen is not None`: if `candgen_model` was
unset the attribute was never assigned, so evaluating the assert's
condition raises AttributeError (not AssertionError); if it was assigned
it is never None, so the assert succeeds and line 123 assigns the
`asearch_planner` attribute.  Returns the triple of attributes
`(candgen, sampling_planner, asearch_planner)`. -/
def initPlanners (candgen_model : Option String) (strategy : List RivalStrategy) :
    Except ErrKind (Option Unit × Option Unit × Option Unit) :=
  let candgen : Option Unit := match candgen_model with
    | some _ => some ()
    | none => none
  if RivalStrategy.gen_cur_weights ∈ strategy then
    match candgen with
    | none => Except.error ErrKind.attributeError
    | some c => Except.ok (some c, candgen, some ())
  else
    Except.ok (candgen, candgen, none)

/-- Fitted ranker state relevant to scoring: the weight vector `self.w`
and the frozen feature pipeline `self._extract_feats` (the composite of
the external feature extractor, the fitted `DictVectorizer` and the
fitted `StandardScaler`, rank.py lines 77-80), plus the scalar
configuration. -/
structure RankerModel (T D : Type) where
  w : List ℚ
  alpha : ℚ
  extract : T → D → List ℚ

/-- Scoring interface `PerceptronRanker.score` (rank.py lines 69-75):
dot product of the weights with the extracted candidate features. -/
def RankerModel.score {T D : Type} (m : RankerModel T D) (t : T) (da : D) : ℚ :=
  dotProd m.w (m.extract t da)

/-- Serialized form of a model produced by `Ranker.save_to_file`. -/
structure SavedBlob (T D : Type) where
  model : RankerModel T D

/-- Modelled from the spec: `Ranker.save_to_file` (rank.py lines 37-41)
delegates to `cPickle.dump`, which is external to the repository; per the
spec, persistence "serializes the entire fitted model (weights,
vectorizer, normalizer, configuration) as an opaque blob" with
"round-trip fidelity (identical scores before/after reload) required",
so the blob is modelled as a lossless snapshot of the model state. -/
def saveToFile {T D : Type} (m : RankerModel T D) : SavedBlob T D :=
  SavedBlob.mk m

/-- Modelled from the spec: `Ranker.load_from_file` (rank.py lines 30-35)
delegates to `cPickle.load`, the inverse of the `cPickle.dump` used by
`saveToFile`; it reconstructs the pickled model state. -/
def loadFromFile {T D : Type} (b : SavedBlob T D) : RankerModel T D :=
  b.model

/-- Feature pipeline used by the concrete witness instantiations: a tree
is a natural number tag and its single feature is its own value. -/
def natFeat (t : ℕ) (_ : Unit) : List ℚ :=
  [(t : ℚ)]

/-! Helper lemmas about `listMax` and `idxOfMax`. -/

lemma le_foldl_max (xs : List ℚ) (a : ℚ) : a ≤ xs.foldl max a := by
  induction xs generalizing a with
  | nil => exact le_refl a
  | cons x xs ih => exact le_trans (le_max_left a x) (ih (max a x))

lemma mem_le_foldl_max (xs : List ℚ) (a : ℚ) : ∀ x ∈ xs, x ≤ xs.foldl max a := by
  induction xs generalizing a with
  | nil => intro x hx; cases hx
  | cons y ys ih =>
    intro x hx
    rcases List.mem_cons.1 hx with h | h
    · subst h; exact le_trans (le_max_right a x) (le_foldl_max ys (max a x))
    · exact ih (max a y) x h

lemma foldl_max_choice (xs : List ℚ) (a : ℚ) :
    xs.foldl max a = a ∨ xs.foldl max a ∈ xs := by
  induction xs generalizing a with
  | nil => left; rfl
  | cons y ys ih =>
    rcases ih (max a y) with h | h
    · rcases max_choice a y with h2 | h2
      · left; rw [List.foldl_cons, h, h2]
      · right; rw [List.foldl_cons, h, h2]; exact List.mem_cons_self y ys
    · right; exact List.mem_cons_of_mem y h

lemma listMax_mem {l : List ℚ} (h : l ≠ []) : listMax l ∈ l := by
  cases l with
  | nil => exact absurd rfl h
  | cons x xs =>
    rcases foldl_max_choice xs x with h2 | h2
    · show xs.foldl max x ∈ x :: xs
      rw [h2]; exact List.mem_cons_self x xs
    · exact List.mem_cons_of_mem x h2

lemma le_listMax {l : List ℚ} {x : ℚ} (hx : x ∈ l) : x ≤ listMax l := by
  cases l with
  | nil => cases hx
  | cons y ys =>
    rcases List.mem_cons.1 hx with h | h
    · subst h; exact le_foldl_max ys x
    · exact mem_le_foldl_max ys y x h

lemma getD_ne_of_lt_indexOf {α : Type} [DecidableEq α] (a d : α) :
    ∀ (l : List α) (j : ℕ), j < List.indexOf a l → l.getD j d ≠ a := by
  intro l
  induction l with
  | nil => intro j h; rw [List.indexOf_nil] at h; exact absurd h (Nat.not_lt_zero j)
  | cons b t ih =>
    intro j h
    by_cases hba : b = a
    · rw [List.indexOf_cons_eq t hba] at h
      exact absurd h (Nat.not_lt_zero j)
    · rw [List.indexOf_cons_ne t hba] at h
      cases j with
      | zero => simpa [List.getD_cons_zero] using hba
      | succ jj =>
        have := ih jj (Nat.lt_of_succ_lt_succ h)
        simpa [List.getD_cons_succ] using this

lemma idxOfMax_lt_length {l : List ℚ} (h : l ≠ []) : idxOfMax l < l.length :=
  List.indexOf_lt_length.2 (listMax_mem h)

lemma getD_idxOfMax {l : List ℚ} (h : l ≠ []) : l.getD (idxOfMax l) 0 = listMax l := by
  have hl := idxOfMax_lt_length h
  rw [List.getD_eq_getElem l 0 hl]
  exact List.getElem_indexOf hl

lemma getD_lt_idxOfMax {l : List ℚ} {j : ℕ} (h : j < idxOfMax l) :
    l.getD j 0 ≠ listMax l :=
  getD_ne_of_lt_indexOf (listMax l) 0 l j h

lemma idxOfMax_cons_of_le {a : ℚ} {xs : List ℚ} (h : ∀ x ∈ xs, x ≤ a) :
    idxOfMax (a :: xs) = 0 := by
  have hm : xs.foldl max a = a := by
    rcases foldl_max_choice xs a with h2 | h2
    · exact h2
    · exact le_antisymm (h _ h2) (le_foldl_max xs a)
  show (a :: xs).indexOf (listMax (a :: xs)) = 0
  have : listMax (a :: xs) = a := hm
  rw [this]
  exact List.indexOf_cons_self a xs

/-! Helper lemmas about `instanceStep`. -/

lemma stepScores_eq (w gold : List ℚ) (rivals : List (List ℚ)) :
    stepScores w gold rivals = dotProd w gold :: rivals.map (dotProd w) := rfl

lemma stepScores_ne_nil (w gold : List ℚ) (rivals : List (List ℚ)) :
    stepScores w gold rivals ≠ [] := by
  rw [stepScores_eq]; exact List.cons_ne_nil _ _

lemma rivals_ne_nil_of_idx_ne {w gold : List ℚ} {rivals : List (List ℚ)}
    (h : idxOfMax (stepScores w gold rivals) ≠ 0) : rivals ≠ [] := by
  intro he
  apply h
  subst he
  have : stepScores w gold [] = [dotProd w gold] := rfl
  rw [this]
  exact idxOfMax_cons_of_le (by intro x hx; cases hx)

lemma isEmpty_false_of_ne_nil {α : Type} {l : List α} (h : l ≠ []) :
    l.isEmpty = false := by
  cases l with
  | nil => exact absurd rfl h
  | cons x xs => rfl

lemma instanceStep_eq_update {w gold : List ℚ} {alpha : ℚ} {rivals : List (List ℚ)}
    (htop : idxOfMax (stepScores w gold rivals) ≠ 0) :
    instanceStep w alpha gold rivals =
      Except.ok (perceptronUpdate w alpha gold
        ((candList gold rivals).getD (idxOfMax (stepScores w gold rivals)) []), true) := by
  have hE := isEmpty_false_of_ne_nil (rivals_ne_nil_of_idx_ne htop)
  simp [instanceStep, hE, htop]

lemma instanceStep_eq_noupdate {w gold : List ℚ} {alpha : ℚ} {rivals : List (List ℚ)}
    (hne : rivals ≠ []) (htop : idxOfMax (stepScores w gold rivals) = 0) :
    instanceStep w alpha gold rivals = Except.ok (w, false) := by
  have hE := isEmpty_false_of_ne_nil hne
  simp [instanceStep, hE, htop]

lemma dotProd_getD_top {w gold : List ℚ} {rivals : List (List ℚ)} :
    dotProd w ((candList gold rivals).getD (idxOfMax (stepScores w gold rivals)) []) =
      listMax (stepScores w gold rivals) := by
  have hsne := stepScores_ne_nil w gold rivals
  have htl : idxOfMax (stepScores w gold rivals) < (stepScores w gold rivals).length :=
    idxOfMax_lt_length hsne
  have htc : idxOfMax (stepScores w gold rivals) < (candList gold rivals).length := by
    have : (stepScores w gold rivals).length = (candList gold rivals).length :=
      List.length_map _ _
    omega
  rw [List.getD_eq_getElem _ [] htc]
  have hmap : (stepScores w gold rivals)[idxOfMax (stepScores w gold rivals)] =
      dotProd w (candList gold rivals)[idxOfMax (stepScores w gold rivals)] :=
    List.getElem_map (dotProd w)
  rw [← hmap, ← List.getD_eq_getElem _ 0 htl]
  exact getD_idxOfMax hsne

/-- Claim C1: on a training instance where some rival candidate receives
the highest score (`top_cand_idx != 0`), the step performs exactly the
single update `w_new = w_old + alpha * gold_feats - alpha *
cands[top_cand_idx]`, where `cands[top_cand_idx]` scores at least as high
as every candidate (it attains the maximal score); no other candidate
enters the update. -/
theorem C1_update_rule (w gold : List ℚ) (alpha : ℚ) (rivals : List (List ℚ))
    (htop : idxOfMax (stepScores w gold rivals) ≠ 0) :
    instanceStep w alpha gold rivals =
      Except.ok (vecAdd w (vecSub (vecScale alpha gold)
        (vecScale alpha
          ((candList gold rivals).getD (idxOfMax (stepScores w gold rivals)) []))), true)
    ∧ dotProd w ((candList gold rivals).getD (idxOfMax (stepScores w gold rivals)) []) =
        listMax (stepScores w gold rivals)
    ∧ ∀ c ∈ candList gold rivals,
        dotProd w c ≤
          dotProd w ((candList gold rivals).getD (idxOfMax (stepScores w gold rivals)) []) := by
  refine ⟨instanceStep_eq_update htop, dotProd_getD_top, ?_⟩
  intro c hc
  rw [dotProd_getD_top]
  exact le_listMax (List.mem_map_of_mem (dotProd w) hc)

/-- Concrete instantiation of `C1_update_rule`: weights `[1]`, gold
features `[0]`, one rival `[2]` outscoring the gold, learning rate `1`. -/
theorem C1_update_rule_witness :
    instanceStep [1] 1 [0] [[2]] =
      Except.ok (vecAdd [1] (vecSub (vecScale 1 [0])
        (vecScale 1
          ((candList [0] [[2]]).getD (idxOfMax (stepScores [1] [0] [[2]])) []))), true)
    ∧ dotProd [1] ((candList [0] [[2]]).getD (idxOfMax (stepScores [1] [0] [[2]])) []) =
        listMax (stepScores [1] [0] [[2]])
    ∧ ∀ c ∈ candList [0] [[2]],
        dotProd [1] c ≤
          dotProd [1] ((candList [0] [[2]]).getD (idxOfMax (stepScores [1] [0] [[2]])) []) :=
  C1_update_rule [1] [0] 1 [[2]] (by
    norm_num [idxOfMax, stepScores, candList, dotProd, listMax,
      List.indexOf_cons_ne, List.indexOf_cons_self])

/-- Claim C2: the gold feature vector occupies index 0 of the candidate
list, `top_cand_idx` is the FIRST index attaining the maximal score, a
weight update occurs if and only if `top_cand_idx != 0`, and when no
rival strictly exceeds the gold score (exact ties included) the index is
0 and no update occurs. -/
theorem C2_gold_index_update_iff (w gold : List ℚ) (alpha : ℚ)
    (rivals : List (List ℚ)) :
    (candList gold rivals).getD 0 [] = gold
    ∧ (stepScores w gold rivals).getD (idxOfMax (stepScores w gold rivals)) 0 =
        listMax (stepScores w gold rivals)
    ∧ (∀ j < idxOfMax (stepScores w gold rivals),
        (stepScores w gold rivals).getD j 0 ≠ listMax (stepScores w gold rivals))
    ∧ (rivals ≠ [] →
        ((instanceStep w alpha gold rivals).map Prod.snd = Except.ok true ↔
          idxOfMax (stepScores w gold rivals) ≠ 0))
    ∧ ((∀ r ∈ rivals, dotProd w r ≤ dotProd w gold) →
        idxOfMax (stepScores w gold rivals) = 0
        ∧ (rivals ≠ [] → instanceStep w alpha gold rivals = Except.ok (w, false))) := by
  refine ⟨rfl, getD_idxOfMax (stepScores_ne_nil w gold rivals),
    fun j hj => getD_lt_idxOfMax hj, ?_, ?_⟩
  · intro hne
    by_cases htop : idxOfMax (stepScores w gold rivals) = 0
    · rw [instanceStep_eq_noupdate hne htop]
      simp [Except.map, htop]
    · rw [instanceStep_eq_update htop]
      simp [Except.map, htop]
  · intro hle
    have h0 : idxOfMax (stepScores w gold rivals) = 0 := by
      rw [stepScores_eq]
      apply idxOfMax_cons_of_le
      intro x hx
      rcases List.mem_map.1 hx with ⟨r, hr, hxr⟩
      rw [← hxr]
      exact hle r hr
    exact ⟨h0, fun hne => instanceStep_eq_noupdate hne h0⟩

/-- Concrete instantiation of `C2_gold_index_update_iff`: weights `[1]`,
gold features `[2]`, rivals `[[1], [2]]`; the second rival exactly ties
the gold score and no rival exceeds it, so no update occurs. -/
theorem C2_gold_index_update_iff_witness :
    ((candList [2] [[1], [2]]).getD 0 [] = [2]
      ∧ ((instanceStep [1] 1 [2] [[1], [2]]).map Prod.snd = Except.ok true ↔
          idxOfMax (stepScores [1] [2] [[1], [2]]) ≠ 0))
    ∧ idxOfMax (stepScores [1] [2] [[1], [2]]) = 0
    ∧ instanceStep [1] 1 [2] [[1], [2]] = Except.ok ([1], false) := by
  have h := C2_gold_index_update_iff [1] [2] 1 [[1], [2]]
  have h5 := h.2.2.2.2 (by norm_num [dotProd, List.forall_mem_cons])
  exact ⟨⟨h.1, h.2.2.2.1 (by simp)⟩, h5.1, h5.2 (by simp)⟩

/-- Claim C9: the per-instance step with an empty rival candidate list
raises ValueError (Python `max` over the empty rival score slice in the
best-rival diagnostics, rank.py line 161) before any weight update or
error count is applied, so no updated weight vector is produced. -/
theorem C9_empty_rivals_error (w : List ℚ) (alpha : ℚ) (gold : List ℚ) :
    instanceStep w alpha gold [] = Except.error ErrKind.valueError := rfl

/-- Claim C3: for a training set of `n` trees with `n > rival_number + 1`,
the `other_inst` strategy applied to a sample of `rival_number` distinct
indices drawn from `0 .. n-2` returns exactly `rival_number` rival trees,
taken at pairwise-distinct training-set indices none of which equals
`tree_no` (a drawn index equal to `tree_no` is replaced by the last index
`n - 1`), and the feature list is the extraction of each rival tree
against the current instance's `da`. -/
theorem C3_other_inst_invariants {T D : Type} [DecidableEq T] [Inhabited T]
    (trainTrees : List T) (extract : T → D → List ℚ) (da : D)
    (tree_no rival_number : ℕ) (sample : List ℕ)
    (hsize : rival_number + 1 < trainTrees.length)
    (hlen : sample.length = rival_number)
    (hnd : sample.Nodup)
    (hmem : ∀ i ∈ sample, i < trainTrees.length - 1) :
    (otherInstStrategy trainTrees extract da tree_no sample).1.length = rival_number
    ∧ (otherInstStrategy trainTrees extract da tree_no sample).2.length = rival_number
    ∧ (otherInstIdxs trainTrees.length tree_no sample).Nodup
    ∧ (∀ i ∈ otherInstIdxs trainTrees.length tree_no sample,
        i ≠ tree_no ∧ i < trainTrees.length)
    ∧ (otherInstStrategy trainTrees extract da tree_no sample).1 =
        (otherInstIdxs trainTrees.length tree_no sample).map
          (fun i => trainTrees.getD i default)
    ∧ (otherInstStrategy trainTrees extract da tree_no sample).2 =
        (otherInstStrategy trainTrees extract da tree_no sample).1.map
          (fun t => extract t da) := by
  refine ⟨?_, ?_, ?_, ?_, rfl, rfl⟩
  · simp [otherInstStrategy, otherInstIdxs, hlen]
  · simp [otherInstStrategy, otherInstIdxs, hlen]
  · apply List.Nodup.map_on ?_ hnd
    intro a ha b hb hab
    by_cases hat : a = tree_no
    · by_cases hbt : b = tree_no
      · rw [hat, hbt]
      · rw [if_pos hat, if_neg hbt] at hab
        have hb2 := hmem b hb
        omega
    · by_cases hbt : b = tree_no
      · rw [if_neg hat, if_pos hbt] at hab
        have ha2 := hmem a ha
        omega
      · rwa [if_neg hat, if_neg hbt] at hab
  · intro i hi
    rcases List.mem_map.1 hi with ⟨a, ha, hfa⟩
    have ha2 := hmem a ha
    by_cases hat : a = tree_no
    · rw [if_pos hat] at hfa
      exact ⟨by omega, by omega⟩
    · rw [if_neg hat] at hfa
      exact ⟨by omega, by omega⟩

/-- Concrete instantiation of `C3_other_inst_invariants`: four training
trees, current index 0, sample `[0, 2]` drawn from `0 .. 2`; the drawn
index 0 collides with `tree_no` and is replaced by the last index 3. -/
theorem C3_other_inst_invariants_witness :
    (otherInstStrategy [10, 20, 30, 40] natFeat () 0 [0, 2]).1.length = 2
    ∧ (otherInstStrategy [10, 20, 30, 40] natFeat () 0 [0, 2]).2.length = 2
    ∧ (otherInstIdxs (List.length [10, 20, 30, 40]) 0 [0, 2]).Nodup
    ∧ (∀ i ∈ otherInstIdxs (List.length [10, 20, 30, 40]) 0 [0, 2],
        i ≠ 0 ∧ i < List.length [10, 20, 30, 40])
    ∧ (otherInstStrategy [10, 20, 30, 40] natFeat () 0 [0, 2]).1 =
        (otherInstIdxs (List.length [10, 20, 30, 40]) 0 [0, 2]).map
          (fun i => List.getD [10, 20, 30, 40] i default)
    ∧ (otherInstStrategy [10, 20, 30, 40] natFeat () 0 [0, 2]).2 =
        (otherInstStrategy [10, 20, 30, 40] natFeat () 0 [0, 2]).1.map
          (fun t => natFeat t ()) :=
  C3_other_inst_invariants [10, 20, 30, 40] natFeat () 0 2 [0, 2]
    (by decide) (by decide) (by decide) (by decide)

/-! Helper lemmas for the `random` strategy loop. -/

lemma randomLoopAux_zero {T : Type} [DecidableEq T] (gen : ℕ → T) (gold : T)
    (k i : ℕ) (acc : List T) :
    randomLoopAux gen gold k 0 i acc =
      if k ≤ acc.length then some acc else none := rfl

lemma randomLoopAux_step {T : Type} [DecidableEq T] (gen : ℕ → T) (gold : T)
    (k fuel i : ℕ) (acc : List T) :
    randomLoopAux gen gold k (fuel + 1) i acc =
      if k ≤ acc.length then some acc
      else randomLoopAux gen gold k fuel (i + 1)
        (if gen i ≠ gold then acc ++ [gen i] else acc) := rfl

lemma countNonGold_zero {T : Type} [DecidableEq T] (gen : ℕ → T) (gold : T) (i : ℕ) :
    countNonGold gen gold i 0 = 0 := rfl

lemma countNonGold_succ {T : Type} [DecidableEq T] (gen : ℕ → T) (gold : T)
    (i fuel : ℕ) :
    countNonGold gen gold i (fuel + 1) =
      (if gen i ≠ gold then 1 else 0) + countNonGold gen gold (i + 1) fuel := rfl

lemma randomLoopAux_spec {T : Type} [DecidableEq T] (gen : ℕ → T) (gold : T) (k : ℕ) :
    ∀ (fuel i : ℕ) (acc : List T), acc.length ≤ k → (∀ t ∈ acc, t ≠ gold) →
      k ≤ acc.length + countNonGold gen gold i fuel →
      ∃ l, randomLoopAux gen gold k fuel i acc = some l
        ∧ l.length = k ∧ ∀ t ∈ l, t ≠ gold := by
  intro fuel
  induction fuel with
  | zero =>
    intro i acc hle hng hcount
    rw [countNonGold_zero] at hcount
    refine ⟨acc, ?_, by omega, hng⟩
    rw [randomLoopAux_zero, if_pos (by omega)]
  | succ fuel ih =>
    intro i acc hle hng hcount
    rw [countNonGold_succ] at hcount
    by_cases hdone : k ≤ acc.length
    · refine ⟨acc, ?_, by omega, hng⟩
      rw [randomLoopAux_step, if_pos hdone]
    · rw [randomLoopAux_step, if_neg hdone]
      by_cases hg : gen i = gold
      · rw [if_neg (by simpa using hg)]
        apply ih (i + 1) acc hle hng
        rw [if_neg (by simpa using hg)] at hcount
        omega
      · rw [if_pos (by simpa using hg)]
        rw [if_pos (by simpa using hg)] at hcount
        apply ih (i + 1) (acc ++ [gen i])
        · rw [List.length_append]
          simpa using by omega
        · intro t ht
          rcases List.mem_append.1 ht with h | h
          · exact hng t h
          · rw [List.mem_singleton] at h
            rw [h]
            exact hg
        · rw [List.length_append]
          simp only [List.length_singleton]
          omega

lemma randomLoopAux_gold_none {T : Type} [DecidableEq T] (gen : ℕ → T) (gold : T)
    (k : ℕ) (hk : 0 < k) (hall : ∀ i, gen i = gold) :
    ∀ fuel i, randomLoopAux gen gold k fuel i [] = none := by
  intro fuel
  induction fuel with
  | zero =>
    intro i
    rw [randomLoopAux_zero, if_neg (by simp; omega)]
  | succ fuel ih =>
    intro i
    rw [randomLoopAux_step, if_neg (by simp; omega),
      if_neg (by simpa using hall i)]
    exact ih (i + 1)

/-- Claim C4: the `random` strategy loop, given that the planner stream
eventually produces `rival_number` trees different from the gold tree
(at least `k` non-gold trees among the first `n` attempts), terminates
within `n` attempts and contributes exactly `k` trees, every one
different from the gold tree; and with no cap on attempts, a planner that
always regenerates the gold tree makes the loop run forever (no amount of
fuel completes it). -/
theorem C4_random_loop (T : Type) [DecidableEq T] (gen : ℕ → T) (gold : T)
    (k n : ℕ) :
    (k ≤ countNonGold gen gold 0 n →
      (randomStrategyTrees gen gold k n).isSome = true
      ∧ ((randomStrategyTrees gen gold k n).getD []).length = k
      ∧ ∀ t ∈ (randomStrategyTrees gen gold k n).getD [], t ≠ gold)
    ∧ (0 < k → (∀ i, gen i = gold) → randomStrategyTrees gen gold k n = none) := by
  constructor
  · intro hcount
    obtain ⟨l, hl, hlen, hng⟩ :=
      randomLoopAux_spec gen gold k n 0 [] (Nat.zero_le k)
        (by intro t ht; cases ht) (by simpa using hcount)
    have : randomStrategyTrees gen gold k n = some l := hl
    rw [this]
    exact ⟨rfl, hlen, hng⟩
  · intro hk hall
    exact randomLoopAux_gold_none gen gold k hk hall n 0

/-- Concrete instantiation of `C4_random_loop`: with the stream
`gen i = i` and gold tree `0`, two rivals are collected within three
attempts; with the constant-gold stream, no fuel completes the loop. -/
theorem C4_random_loop_witness :
    ((randomStrategyTrees (fun i : ℕ => i) 0 2 3).isSome = true
      ∧ ((randomStrategyTrees (fun i : ℕ => i) 0 2 3).getD []).length = 2
      ∧ ∀ t ∈ (randomStrategyTrees (fun i : ℕ => i) 0 2 3).getD [], t ≠ 0)
    ∧ randomStrategyTrees (fun _ : ℕ => (0 : ℕ)) 0 2 5 = none :=
  ⟨(C4_random_loop ℕ (fun i => i) 0 2 3).1 (by decide),
   (C4_random_loop ℕ (fun _ => 0) 0 2 5).2 (by decide) (fun _ => rfl)⟩

/-! Helper lemma for the `gen_cur_weights` drain loop. -/

lemma drainAux_eq_take_filter {T : Type} [DecidableEq T] (gold : T) :
    ∀ (l : List (T × ℚ)) (k : ℕ),
      drainAux gold k l =
        ((l.map Prod.fst).filter (fun t => decide (t ≠ gold))).take k := by
  intro l
  induction l with
  | nil =>
    intro k
    cases k with
    | zero => rfl
    | succ kk => rfl
  | cons p rest ih =>
    intro k
    cases k with
    | zero =>
      show (if 0 = 0 then [] else _) = _
      rw [if_pos rfl, List.take_zero]
    | succ kk =>
      by_cases hg : p.1 = gold
      · show (if kk + 1 = 0 then [] else if p.1 ≠ gold then _ else drainAux gold (kk + 1) rest) = _
        rw [if_neg (Nat.succ_ne_zero kk), if_neg (by simpa using hg)]
        rw [ih (kk + 1)]
        simp [List.filter_cons, hg]
      · show (if kk + 1 = 0 then [] else if p.1 ≠ gold then p.1 :: drainAux gold (kk + 1 - 1) rest else _) = _
        rw [if_neg (Nat.succ_ne_zero kk), if_pos (by simpa using hg)]
        have hred : kk + 1 - 1 = kk := rfl
        rw [hred, ih kk]
        simp [List.filter_cons, hg]

/-- Claim C5: the `gen_cur_weights` strategy appends the search run's open
and closed lists to the diagnostics analyzer unconditionally (for every
search result, before and regardless of how many rivals are extracted),
and its rival trees are obtained by popping from the end of the closed
list (most-recently-closed first), skipping trees equal to the gold tree,
stopping when `rival_number` trees are collected or the closed list is
exhausted; hence at most `rival_number` trees are contributed. -/
theorem C5_gcw_analyzer_and_drain {T : Type} [DecidableEq T]
    (analyzer : AnalyzerLog T) (gold : T) (openL closeL : List (T × ℚ)) (k : ℕ) :
    (gcwStrategy analyzer gold openL closeL k).1 = analyzer ++ [(gold, openL, closeL)]
    ∧ (gcwStrategy analyzer gold openL closeL k).2 =
        ((closeL.reverse.map Prod.fst).filter (fun t => decide (t ≠ gold))).take k
    ∧ (gcwStrategy analyzer gold openL closeL k).2.length ≤ k := by
  refine ⟨rfl, drainAux_eq_take_filter gold closeL.reverse k, ?_⟩
  show (drainAux gold k closeL.reverse).length ≤ k
  rw [drainAux_eq_take_filter gold closeL.reverse k, List.length_take]
  exact min_le_left _ _

/-! Helper lemma for the training-set truncation. -/

lemma initTrainSize_zero (n : ℕ) : initTrainSize 0 n = 0 := by
  have h1 : ((0 : ℚ) * n) = 0 := by ring
  rw [initTrainSize, pyRound, h1, if_pos (le_refl (0 : ℚ)), zero_add]
  have h2 : ⌊(1 / 2 : ℚ)⌋ = 0 := by
    rw [Int.floor_eq_zero_iff]
    constructor <;> norm_num
  rw [h2]
  rfl

/-- Claim C6 counterexample: with `data_portion = 0.0` on a three-instance
corpus the training set is empty, yet the training pass does NOT complete
without error — computing the pass accuracy
`1.0 - iter_errs / float(len(self.train_trees))` divides by zero and the
pass raises ZeroDivisionError, contradicting the claim that every pass
completes as a defined no-op without raising an error. -/
theorem C6_counterexample :
    initTrainSize 0 3 = 0
    ∧ trainingIter [1] 1 (List.take (initTrainSize 0 3) [[1], [2], [3]])
        (fun _ => [[5]]) = Except.error ErrKind.zeroDivisionError := by
  have h0 : initTrainSize 0 3 = 0 := initTrainSize_zero 3
  refine ⟨h0, ?_⟩
  rw [h0, List.take_zero]
  rfl

/-- Claim C6, amended: `data_portion = 0.0` yields an empty training set,
the per-instance loop of a pass runs zero iterations and leaves the
weight vector unchanged with zero errors, but the pass then raises
ZeroDivisionError when computing the iteration accuracy (division by the
zero instance count), instead of completing without error. -/
theorem C6_empty_training_pass (ttrees : List (List ℚ)) (w : List ℚ) (alpha : ℚ)
    (rivals : ℕ → List (List ℚ)) :
    initTrainSize 0 ttrees.length = 0
    ∧ ttrees.take (initTrainSize 0 ttrees.length) = []
    ∧ runInstances alpha rivals (ttrees.take (initTrainSize 0 ttrees.length)) 0 w 0 =
        Except.ok (w, 0)
    ∧ trainingIter w alpha (ttrees.take (initTrainSize 0 ttrees.length)) rivals =
        Except.error ErrKind.zeroDivisionError := by
  have h0 : initTrainSize 0 ttrees.length = 0 := initTrainSize_zero _
  rw [h0, List.take_zero]
  exact ⟨rfl, rfl, rfl, rfl⟩

/-- Claim C7 counterexample: requesting the `gen_cur_weights` strategy
with `candgen_model` unset aborts initialization, but NOT via an
assertion failure: the `candgen` attribute was never assigned (the
assignment at rank.py lines 115-120 is skipped), so evaluating
`assert self.candgen is not None` raises AttributeError while reading the
attribute, which is a different exception than an AssertionError. -/
theorem C7_counterexample :
    initPlanners none [RivalStrategy.gen_cur_weights] =
      Except.error ErrKind.attributeError
    ∧ ErrKind.attributeError ≠ ErrKind.assertionError := by
  exact ⟨rfl, by decide⟩

/-- Claim C7, amended: if `rival_gen_strategy` contains `gen_cur_weights`
and no candidate-generation model is configured, training initialization
aborts immediately — before any training pass — via an AttributeError
raised while evaluating the condition of the `assert` statement (the
`candgen` attribute is never assigned when `candgen_model` is unset);
the configuration error is not recoverable. -/
theorem C7_init_aborts (strategy : List RivalStrategy)
    (hmem : RivalStrategy.gen_cur_weights ∈ strategy) :
    initPlanners none strategy = Except.error ErrKind.attributeError := by
  simp [initPlanners, hmem]

/-- Concrete instantiation of `C7_init_aborts`: the strategy list
containing exactly `gen_cur_weights`, with no candidate generator model. -/
theorem C7_init_aborts_witness :
    initPlanners none [RivalStrategy.gen_cur_weights] =
      Except.error ErrKind.attributeError :=
  C7_init_aborts [RivalStrategy.gen_cur_weights] (List.mem_singleton.2 rfl)

/-- Claim C8: saving a fitted model and loading it back yields a model
whose score on every fixed (tree, da) candidate equals the pre-save
model's score (round-trip fidelity of the weights and the frozen feature
pipeline). -/
theorem C8_round_trip_score {T D : Type} (m : RankerModel T D) (t : T) (da : D) :
    (loadFromFile (saveToFile m)).score t da = m.score t da := rfl

/-! Helper lemma for the rival aggregation. -/

lemma otherInstStrategy_snd {T D : Type} [DecidableEq T] [Inhabited T]
    (trainTrees : List T) (extract : T → D → List ℚ) (da : D)
    (tree_no : ℕ) (sample : List ℕ) :
    (otherInstStrategy trainTrees extract da tree_no sample).2 =
      (otherInstStrategy trainTrees extract da tree_no sample).1.map
        (fun t => extract t da) := rfl

/-- Claim C10: whenever `_get_rival_candidates` returns, its tree list and
feature list have equal length, the feature list is exactly the
extraction of each rival tree against the current instance's `da`, and
the tree list is the concatenation of the enabled strategies' outputs in
the fixed source order `other_inst`, `random`, `gen_cur_weights`. -/
theorem C10_rival_aggregation {T D : Type} [DecidableEq T] [Inhabited T]
    (strategy : List RivalStrategy) (trainTrees : List T)
    (extract : T → D → List ℚ) (da : D) (tree_no : ℕ) (sample : List ℕ)
    (gen : ℕ → T) (fuel : ℕ) (openL closeL : List (T × ℚ))
    (analyzer : AnalyzerLog T) (k : ℕ)
    (trees : List T) (feats : List (List ℚ)) (an2 : AnalyzerLog T)
    (h : getRivalCandidates strategy trainTrees extract da tree_no sample gen fuel
          openL closeL analyzer k = some (trees, feats, an2)) :
    feats = trees.map (fun t => extract t da)
    ∧ trees.length = feats.length
    ∧ trees =
        (if RivalStrategy.other_inst ∈ strategy then
          (otherInstStrategy trainTrees extract da tree_no sample).1
        else [])
        ++ (if RivalStrategy.random ∈ strategy then
              (randomStrategyTrees gen (trainTrees.getD tree_no default) k fuel).getD []
            else [])
        ++ (if RivalStrategy.gen_cur_weights ∈ strategy then
              ((gcwStrategy analyzer (trainTrees.getD tree_no default) openL closeL k).2).take k
            else []) := by
  simp only [getRivalCandidates] at h
  by_cases hR : RivalStrategy.random ∈ strategy
  · rw [if_pos hR] at h
    cases hRS : randomStrategyTrees gen (trainTrees.getD tree_no default) k fuel with
    | none =>
      rw [hRS] at h
      exact absurd h (by simp)
    | some t2 =>
      rw [hRS] at h
      simp only [Option.some.injEq, Prod.mk.injEq] at h
      obtain ⟨ht, hf, _⟩ := h
      have hmap : feats = trees.map (fun t => extract t da) := by
        rw [← ht, ← hf]
        by_cases hO : RivalStrategy.other_inst ∈ strategy <;>
          by_cases hG : RivalStrategy.gen_cur_weights ∈ strategy <;>
            simp [hO, hG, otherInstStrategy_snd, List.map_append]
      refine ⟨hmap, by rw [hmap, List.length_map], ?_⟩
      rw [← ht, if_pos hR]
      by_cases hO : RivalStrategy.other_inst ∈ strategy <;>
        by_cases hG : RivalStrategy.gen_cur_weights ∈ strategy <;>
          simp [hO, hG]
  · rw [if_neg hR] at h
    simp only [Option.some.injEq, Prod.mk.injEq] at h
    obtain ⟨ht, hf, _⟩ := h
    have hmap : feats = trees.map (fun t => extract t da) := by
      rw [← ht, ← hf]
      by_cases hO : RivalStrategy.other_inst ∈ strategy <;>
        by_cases hG : RivalStrategy.gen_cur_weights ∈ strategy <;>
          simp [hO, hG, otherInstStrategy_snd, List.map_append]
    refine ⟨hmap, by rw [hmap, List.length_map], ?_⟩
    rw [← ht, if_neg hR]
    by_cases hO : RivalStrategy.other_inst ∈ strategy <;>
      by_cases hG : RivalStrategy.gen_cur_weights ∈ strategy <;>
        simp [hO, hG]

/-- Concrete instantiation of `C10_rival_aggregation`: all three
strategies enabled on a four-tree training set; `other_inst` supplies
trees 40 and 30, the `random` stream supplies 0 and 1, and the closed
list drained from the end supplies 7 and 0. -/
theorem C10_rival_aggregation_witness :
    ([natFeat 40 (), natFeat 30 (), natFeat 0 (), natFeat 1 (), natFeat 7 (),
        natFeat 0 ()] : List (List ℚ)) =
      ([40, 30, 0, 1, 7, 0] : List ℕ).map (fun t => natFeat t ())
    ∧ ([40, 30, 0, 1, 7, 0] : List ℕ).length =
        ([natFeat 40 (), natFeat 30 (), natFeat 0 (), natFeat 1 (), natFeat 7 (),
          natFeat 0 ()] : List (List ℚ)).length
    ∧ ([40, 30, 0, 1, 7, 0] : List ℕ) =
        (if RivalStrategy.other_inst ∈
            [RivalStrategy.other_inst, RivalStrategy.random,
              RivalStrategy.gen_cur_weights] then
          (otherInstStrategy [10, 20, 30, 40] natFeat () 0 [0, 2]).1
        else [])
        ++ (if RivalStrategy.random ∈
              [RivalStrategy.other_inst, RivalStrategy.random,
                RivalStrategy.gen_cur_weights] then
              (randomStrategyTrees (fun i => i)
                (List.getD [10, 20, 30, 40] 0 default) 2 6).getD []
            else [])
        ++ (if RivalStrategy.gen_cur_weights ∈
              [RivalStrategy.other_inst, RivalStrategy.random,
                RivalStrategy.gen_cur_weights] then
              ((gcwStrategy [] (List.getD [10, 20, 30, 40] 0 default)
                [] [(0, 0), (7, 1)] 2).2).take 2
            else []) :=
  C10_rival_aggregation
    [RivalStrategy.other_inst, RivalStrategy.random, RivalStrategy.gen_cur_weights]
    [10, 20, 30, 40] natFeat () 0 [0, 2] (fun i => i) 6 [] [(0, 0), (7, 1)] [] 2
    [40, 30, 0, 1, 7, 0]
    [natFeat 40 (), natFeat 30 (), natFeat 0 (), natFeat 1 (), natFeat 7 (),
      natFeat 0 ()]
    [(10, [], [(0, 0), (7, 1)])] (by rfl)
